import Mathlib

/-!
Shallow embedding of the AI-Legal-Assistant core (text chunking,
vector store, document ingestion, hybrid search) together with proofs
about the behaviour of these operations.

External capabilities of the source (the NLTK sentence tokenizer, the
Python regular-expression engine, and the sentence-transformer
embedding model) are modelled as explicit oracle parameters; all the
repository logic itself (src/src/utils/text_chunking.py,
src/src/infrastructure/vector_store.py,
src/src/domain/services/document_processor.py) is translated
definition by definition.
-/

/-- Helper for `pyWords`: scan the character list, `acc` holding the
(reversed) characters of the word currently being read. -/
def pyWordsAux : List Char → List Char → List String
  | [], acc => if acc.isEmpty then [] else [String.mk acc.reverse]
  | c :: cs, acc =>
    if c.isWhitespace then
      if acc.isEmpty then pyWordsAux cs [] else String.mk acc.reverse :: pyWordsAux cs []
    else pyWordsAux cs (c :: acc)

/-- Words of a string in the sense of the Python method `str.split()`
with no argument: split on whitespace runs, dropping empty pieces. -/
def pyWords (s : String) : List String :=
  pyWordsAux s.toList []

/-- Python `s.strip()`: remove leading and trailing whitespace. -/
def pyStrip (s : String) : String :=
  String.mk (((s.toList.dropWhile Char.isWhitespace).reverse.dropWhile Char.isWhitespace).reverse)

/-- Word count of a string, `len(s.split())` in the source. -/
def wordCount (s : String) : Nat :=
  (pyWords s).length

/-- Python `' '.join(parts)`. -/
def spaceJoin (parts : List String) : String :=
  String.intercalate (" ") parts

/-- Metadata attached to a chunk dictionary by the chunker
(`chunk['metadata']` in text_chunking.py).  `empty` is the empty dict
used as the default in `VectorStore.store_embeddings`. -/
inductive ChunkMeta where
  | section (section_type : String) (length : Nat)
  | citation (citations : List String) (length : Nat)
  | empty
deriving DecidableEq, Repr

/-- A chunk dictionary `{'text': ..., 'metadata': ...}` produced by the
chunkers in text_chunking.py. -/
structure Chunk where
  text : String
  metadata : ChunkMeta
deriving DecidableEq, Repr

/-- Configuration of `TextChunker.__init__` (defaults 500 / 50). -/
structure TextChunker where
  chunk_size : Nat := 500
  overlap : Nat := 50
deriving DecidableEq, Repr

/-- A chunk of the section chunker, kept as the list of sentences that
make up `current_chunk` at emission time, plus the `current_length`
value recorded in the emitted dictionary.  The final dictionary of the
source joins the sentences with spaces; we perform that join in
`TextChunker.get_section_chunks` below. -/
structure SChunk where
  sents : List String
  len : Nat
deriving DecidableEq, Repr

/-- Loop state of `TextChunker._get_section_chunks`:
emitted `chunks`, `current_chunk`, `current_length`. -/
structure SecState where
  chunks : List SChunk
  cur : List String
  curLen : Nat
deriving DecidableEq, Repr

/-- `current_chunk[-2:] if len(current_chunk) > 2 else current_chunk`
(text_chunking.py line 66): the overlap carried into the next chunk. -/
def overlapTokens (cur : List String) : List String :=
  if cur.length > 2 then cur.drop (cur.length - 2) else cur

/-- One iteration of the `for sentence in sentences` loop of
`TextChunker._get_section_chunks` (text_chunking.py lines 51-71). -/
def sectionStep (chunk_size : Nat) (st : SecState) (sentence : String) : SecState :=
  let sentence_length := wordCount sentence
  if st.curLen + sentence_length > chunk_size ∧ st.cur ≠ [] then
    let overlap_tokens := overlapTokens st.cur
    let newCur := overlap_tokens ++ [sentence]
    ⟨st.chunks ++ [⟨st.cur, st.curLen⟩], newCur, (newCur.map wordCount).sum⟩
  else
    ⟨st.chunks, st.cur ++ [sentence], st.curLen + sentence_length⟩

/-- The whole sentence loop of `TextChunker._get_section_chunks`,
including the trailing `if current_chunk:` emission (lines 51-84),
returning the chunks as sentence lists. -/
def sectionChunkFold (chunk_size : Nat) (sentences : List String) : List SChunk :=
  let st := sentences.foldl (sectionStep chunk_size) ⟨[], [], 0⟩
  if st.cur ≠ [] then st.chunks ++ [⟨st.cur, st.curLen⟩] else st.chunks

/-- Turn an emitted section chunk into the dictionary stored by the
source: `{'text': ' '.join(current_chunk), 'metadata':
{'section_type': section_type, 'length': current_length}}`. -/
def finalizeSection (section_type : String) (sc : SChunk) : Chunk :=
  ⟨spaceJoin sc.sents, ChunkMeta.section section_type sc.len⟩

/-- `TextChunker._get_section_chunks(self, text, section_type)`.
The NLTK `sent_tokenize` is the oracle `stok`. -/
def TextChunker.get_section_chunks (self : TextChunker) (stok : String → List String)
    (text : String) (section_type : String) : List Chunk :=
  (sectionChunkFold self.chunk_size (stok text)).map (finalizeSection section_type)

-- sanity: chunk_size 1 on two one-word sentences gives a 1-sentence
-- chunk followed by a 2-sentence chunk that repeats the overlap
example : sectionChunkFold 1 [("a"), ("b")] = [⟨[("a")], 1⟩, ⟨[("a"), ("b")], 2⟩] := by decide

example : wordCount ("a b  c") = 3 := by decide

/-- A regex match of `re.finditer`, as (start offset, matched text). -/
structure SectionMatch where
  type : String
  start : Nat
  text : String
deriving DecidableEq, Repr

/-- The `section_patterns` dict of
`TextChunker._identify_section_boundaries`, in insertion order. -/
def sectionPatterns : List (String × String) :=
  [(("facts"), r"(?i)(brief\s+facts|statement\s+of\s+facts|factual\s+background)"),
   (("issues"), r"(?i)(issues?(\s+involved)?|questions?\s+of\s+law)"),
   (("arguments"), r"(?i)(arguments?|submissions?|contentions?)"),
   (("analysis"), r"(?i)(analysis|discussion|reasoning)"),
   (("holding"), r"(?i)(holding|conclusion|order|judgment|decree)"),
   (("headnotes"), r"(?i)(headnotes?|syllabus|synopsis)")]

/-- `TextChunker._identify_section_boundaries`: run every pattern over
the text (via the `finditer` oracle modelling `re.finditer`, which
returns the (start, matched text) pairs for a pattern), collect the
matches, and sort them by start offset (Python `list.sort` is stable,
as is `List.insertionSort`). -/
def identify_section_boundaries (finditer : String → String → List (Nat × String))
    (text : String) : List SectionMatch :=
  let sections := sectionPatterns.flatMap
    (fun pt => (finditer pt.2 text).map (fun m => ⟨pt.1, m.1, m.2⟩))
  sections.insertionSort (fun a b => a.start ≤ b.start)

/-- Python `text[s:e]` character slicing. -/
def sliceChars (text : String) (s e : Nat) : String :=
  String.mk ((text.toList.drop s).take (e - s))

/-- `TextChunker.create_chunks(self, text)` (text_chunking.py lines
86-106): identify sections; with no section the whole text is one
`body` section; otherwise chunk each section's slice (from its start
to the next section's start, or end of text) under its own label. -/
def TextChunker.create_chunks (self : TextChunker) (stok : String → List String)
    (finditer : String → String → List (Nat × String)) (text : String) : List Chunk :=
  let sections := identify_section_boundaries finditer text
  if sections = [] then
    self.get_section_chunks stok text ("body")
  else
    (sections.enum.map (fun p =>
      let i := p.1
      let sec := p.2
      let start := sec.start
      let stop := if i + 1 < sections.length
        then (sections.getD (i + 1) ⟨("body"), 0, ("")⟩).start
        else text.length
      self.get_section_chunks stok (sliceChars text start stop) sec.type)).flatten

/-- A chunk of the citation chunker before the final space-join:
`current_chunk` (a list of words), `current_citations`, and
`current_length` at emission time. -/
structure CChunk where
  words : List String
  citations : List String
  len : Nat
deriving DecidableEq, Repr

/-- Loop state of `TextChunker.create_chunks_with_citations`. -/
structure CitState where
  chunks : List CChunk
  curWords : List String
  curLen : Nat
  curCits : List String
deriving DecidableEq, Repr

/-- `words[:self.overlap] if part_length > self.overlap else words`
(text_chunking.py line 143): the seed of the next citation chunk,
taken from the FIRST words of the part being processed. -/
def citSeed (overlap : Nat) (words : List String) : List String :=
  if words.length > overlap then words.take overlap else words

/-- One iteration of the `for part in parts` loop of
`TextChunker.create_chunks_with_citations` (text_chunking.py lines
121-149).  `isCit` is the oracle for
`bool(re.match(citation_pattern, part.strip()))`. -/
def citStep (chunk_size overlap : Nat) (isCit : String → Bool)
    (st : CitState) (part : String) : CitState :=
  let words := pyWords part
  let part_length := words.length
  if isCit part then
    ⟨st.chunks, st.curWords, st.curLen, st.curCits ++ [pyStrip part]⟩
  else if st.curLen + part_length > chunk_size ∧ st.curWords ≠ [] then
    let overlap_words := citSeed overlap words
    ⟨st.chunks ++ [⟨st.curWords, st.curCits, st.curLen⟩],
      overlap_words, overlap_words.length, []⟩
  else
    ⟨st.chunks, st.curWords ++ words, st.curLen + part_length, st.curCits⟩

/-- The whole part loop of `TextChunker.create_chunks_with_citations`,
including the trailing `if current_chunk:` emission (lines 116-160),
returning the chunks as word lists with their citation lists. -/
def citChunkFold (chunk_size overlap : Nat) (isCit : String → Bool)
    (parts : List String) : List CChunk :=
  let st := parts.foldl (citStep chunk_size overlap isCit) ⟨[], [], 0, []⟩
  if st.curWords ≠ [] then st.chunks ++ [⟨st.curWords, st.curCits, st.curLen⟩] else st.chunks

/-- Turn an emitted citation chunk into the stored dictionary:
`{'text': ' '.join(current_chunk), 'metadata': {'citations': ...,
'length': current_length}}`. -/
def finalizeCitation (c : CChunk) : Chunk :=
  ⟨spaceJoin c.words, ChunkMeta.citation c.citations c.len⟩

/-- `TextChunker.create_chunks_with_citations(self, text)`.  The call
`re.split(f'({citation_pattern})', text)` is the oracle `resplit`
(note the doubled capture group of the source: `re.split` then yields
every citation match twice in a row in the part list). -/
def TextChunker.create_chunks_with_citations (self : TextChunker)
    (resplit : String → List String) (isCit : String → Bool) (text : String) : List Chunk :=
  (citChunkFold self.chunk_size self.overlap isCit (resplit text)).map finalizeCitation

-- sanity: chunk_size 2 / overlap 1, two 2-word literal parts: the
-- second chunk is seeded with the FIRST word of the triggering part
example :
    citChunkFold 2 1 (fun _ => false) [("a b"), ("c d")]
      = [⟨[("a"), ("b")], [], 2⟩, ⟨[("c")], [], 1⟩] := by decide

-- sanity: a text that is a single citation yields no chunks at all,
-- dropping the citation (re.split gives ['', cit, cit, ''])
example :
    citChunkFold 500 50 (fun p => !p.isEmpty) [(""), ("12 AB 34"), ("12 AB 34"), ("")]
      = [] := by decide

/-- A case as received by `DocumentProcessor.process_document`
(the `VectorCase` Pydantic model; `court` is optional and JSON dicts
are modelled as association lists). -/
structure VectorCase where
  case_number : String
  title : String
  date : String
  court : Option (List (String × String))
  full_text : String
  metadata : List (String × String)
deriving DecidableEq, Repr

/-- A row of the `cases` table. -/
structure CaseRow where
  id : Nat
  case_number : String
  title : String
  date : String
  court : List (String × String)
  full_text : String
  metadata : List (String × String)
deriving DecidableEq, Repr

/-- A row of the `case_embeddings` table; the embedding vector is an
abstract value produced by the embedding oracle. -/
structure EmbRow where
  case_id : Nat
  embedding_type : String
  embedding : List Int
  text_chunk : String
  chunk_metadata : ChunkMeta
deriving DecidableEq, Repr

/-- The visible (committed) state of the database behind a
`VectorStore`. -/
structure StoreState where
  cases : List CaseRow
  embeddings : List EmbRow
deriving DecidableEq, Repr

/-- `VectorStore.store_case` (vector_store.py lines 65-76): insert the
row, commit, return the SERIAL id (ids are 1, 2, ... in insertion
order). -/
def VectorStore.store_case (st : StoreState) (case_number title date : String)
    (court : List (String × String)) (full_text : String)
    (metadata : List (String × String)) : StoreState × Nat :=
  let id := st.cases.length + 1
  (⟨st.cases ++ [⟨id, case_number, title, date, court, full_text, metadata⟩], st.embeddings⟩, id)

/-- The rows built by the `execute_values` call of
`VectorStore.store_embeddings` from `zip(embeddings, chunks,
chunk_metadata)` (Python `zip` truncates to the shortest list, as does
`List.zip`). -/
def embRows (case_id : Nat) (embedding_type : String) (embs : List (List Int))
    (chunks : List String) (meta : List ChunkMeta) : List EmbRow :=
  (embs.zip (chunks.zip meta)).map (fun p => ⟨case_id, embedding_type, p.1, p.2.1, p.2.2⟩)

/-- `VectorStore.store_embeddings` (vector_store.py lines 78-97):
default the metadata to one empty dict per chunk, encode the chunk
texts in one batch through the embedding oracle (which can fail:
`EmbeddingError`), and insert one row per zipped triple.  Only INSERT
is issued: prior rows are never touched. -/
def VectorStore.store_embeddings (encode : List String → Except String (List (List Int)))
    (st : StoreState) (case_id : Nat) (chunks : List String)
    (embedding_type : String) (chunk_metadata : Option (List ChunkMeta)) :
    Except String StoreState :=
  let meta := chunk_metadata.getD (List.replicate chunks.length ChunkMeta.empty)
  match encode chunks with
  | Except.error e => Except.error e
  | Except.ok embeddings =>
    Except.ok ⟨st.cases, st.embeddings ++ embRows case_id embedding_type embeddings chunks meta⟩

/-- The external capabilities consumed by the processor: NLTK
`sent_tokenize`, `re.finditer`, `re.split` on the citation pattern,
`re.match` on the citation pattern, and the sentence-transformer
batch `encode`. -/
structure Oracles where
  sent_tokenize : String → List String
  finditer : String → String → List (Nat × String)
  re_split : String → List String
  is_citation : String → Bool
  encode : List String → Except String (List (List Int))

/-- The `TextChunker()` built by `DocumentProcessor.__init__`
(default chunk_size 500, overlap 50). -/
def defaultChunker : TextChunker := ⟨500, 50⟩

/-- `DocumentProcessor.process_document` (document_processor.py lines
12-53): store the case header (committed at once), then the section
chunks as `embedding_type='section'`, then the citation chunks as
`embedding_type='citation'`, and return the case id.  A failing step
propagates its error, and the state reached so far (with the header
already committed) is what remains visible. -/
def DocumentProcessor.process_document (env : Oracles) (st : StoreState)
    (case : VectorCase) : StoreState × Except String Nat :=
  let court_dict := case.court.getD []
  let r1 := VectorStore.store_case st case.case_number case.title case.date
    court_dict case.full_text case.metadata
  let st1 := r1.1
  let case_id := r1.2
  let chunks := defaultChunker.create_chunks env.sent_tokenize env.finditer case.full_text
  match VectorStore.store_embeddings env.encode st1 case_id (chunks.map Chunk.text)
      ("section") (some (chunks.map Chunk.metadata)) with
  | Except.error e => (st1, Except.error e)
  | Except.ok st2 =>
    let citation_chunks := defaultChunker.create_chunks_with_citations
      env.re_split env.is_citation case.full_text
    match VectorStore.store_embeddings env.encode st2 case_id
        (citation_chunks.map Chunk.text) ("citation")
        (some (citation_chunks.map Chunk.metadata)) with
    | Except.error e => (st2, Except.error e)
    | Except.ok st3 => (st3, Except.ok case_id)

/-- The `for case in cases` loop of
`DocumentProcessor.batch_process_documents` (document_processor.py
lines 67-76): process each case in turn, appending its id; an
exception aborts the loop and propagates, leaving the ids gathered so
far unreturned. -/
def batchAux (env : Oracles) : StoreState → List Nat → List VectorCase →
    StoreState × Except String (List Nat)
  | st, acc, [] => (st, Except.ok acc)
  | st, acc, c :: cs =>
    match DocumentProcessor.process_document env st c with
    | (st1, Except.error e) => (st1, Except.error e)
    | (st1, Except.ok id) => batchAux env st1 (acc ++ [id]) cs

/-- `DocumentProcessor.batch_process_documents(self, cases)`. -/
def DocumentProcessor.batch_process_documents (env : Oracles) (st : StoreState)
    (cases : List VectorCase) : StoreState × Except String (List Nat) :=
  batchAux env st [] cases

/-- A row of the SQL result set of `VectorStore.hybrid_search`
(columns: id, case_number, title, court_name, text_chunk, similarity).
Scores are modelled as rationals supplied by oracles; `court_name` is
`court->>'name'` (NULL when the key is absent). -/
structure SearchRow where
  id : Nat
  case_number : String
  title : String
  court_name : Option String
  text_chunk : String
  similarity : ℚ
deriving DecidableEq, Repr

/-- The dictionary returned to the caller of `hybrid_search`
(the id column is dropped). -/
structure SearchResult where
  case_number : String
  title : String
  court : Option String
  text_chunk : String
  similarity : ℚ
deriving DecidableEq, Repr

/-- `c.court->>'name'` of the SQL queries. -/
def courtName (c : CaseRow) : Option String :=
  c.court.lookup ("name")

/-- The `vector_results` CTE of `VectorStore.hybrid_search` (lines
139-152): join cases with their embedding rows, score by the vector
similarity oracle (`1 - (embedding <=> query)`), keep rows with
similarity above 0.7. -/
def vectorResults (vecSim : List Int → ℚ) (st : StoreState) : List SearchRow :=
  (st.cases.flatMap (fun c =>
    (st.embeddings.filter (fun ce => ce.case_id == c.id)).map (fun ce =>
      ⟨c.id, c.case_number, c.title, courtName c, ce.text_chunk, vecSim ce.embedding⟩))).filter
    (fun r => decide (mkRat 7 10 < r.similarity))

/-- The `text_results` CTE of `VectorStore.hybrid_search` (lines
153-167): cases whose full text matches the full-text query
(`tsMatch`), scored by `ts_rank_cd` (`tsRank`), with the matched text
column being the whole `full_text`. -/
def textResults (tsMatch : String → Bool) (tsRank : String → ℚ) (st : StoreState) : List SearchRow :=
  (st.cases.filter (fun c => tsMatch c.full_text)).map (fun c =>
    ⟨c.id, c.case_number, c.title, courtName c, c.full_text, tsRank c.full_text⟩)

/-- The combined SELECT of `VectorStore.hybrid_search` (lines
168-174): `vector_results UNION text_results` (SQL UNION removes only
rows identical in every column, which `List.dedup` models), ordered by
similarity descending (SQL leaves the order of ties unspecified; the
sort below is one refinement of it), limited to `top_k`. -/
def hybridRows (vecSim : List Int → ℚ) (tsMatch : String → Bool) (tsRank : String → ℚ)
    (st : StoreState) (top_k : Nat) : List SearchRow :=
  (((vectorResults vecSim st ++ textResults tsMatch tsRank st).dedup).insertionSort
    (fun a b => b.similarity ≤ a.similarity)).take top_k

/-- `VectorStore.hybrid_search` (vector_store.py lines 133-186): the
SQL above, each row then mapped to its result dictionary (dropping the
id column). -/
def VectorStore.hybrid_search (vecSim : List Int → ℚ) (tsMatch : String → Bool)
    (tsRank : String → ℚ) (st : StoreState) (top_k : Nat) : List SearchResult :=
  (hybridRows vecSim tsMatch tsRank st top_k).map (fun r =>
    ⟨r.case_number, r.title, r.court_name, r.text_chunk, r.similarity⟩)

lemma overlapTokens_suffix (l : List String) : overlapTokens l <:+ l := by
  unfold overlapTokens
  split
  · exact List.drop_suffix _ _
  · exact List.suffix_refl l

lemma overlapTokens_length (l : List String) : (overlapTokens l).length = min 2 l.length := by
  unfold overlapTokens
  split
  · rw [List.length_drop]
    omega
  · simp
    omega

/-- What holds of every chunk emitted by the section chunker: it is
nonempty, its recorded `length` is the total word count of its
sentences, and it can exceed the budget only when it consists of at
most three sentences (overlap seed of at most two sentences plus the
one sentence that overflowed, or a lone oversized first sentence). -/
def chunkOk (chunk_size : Nat) (sc : SChunk) : Prop :=
  sc.sents ≠ [] ∧ sc.len = (sc.sents.map wordCount).sum ∧
    (chunk_size < sc.len → sc.sents.length ≤ 3)

/-- Adjacent section chunks: the next one starts with the overlap
tokens of the previous one. -/
def shareOverlap (c₁ c₂ : SChunk) : Prop :=
  c₁.sents ≠ [] ∧ overlapTokens c₁.sents <+: c₂.sents

/-- Loop invariant of the sentence loop of
`TextChunker._get_section_chunks`. -/
def secInv (chunk_size : Nat) (st : SecState) : Prop :=
  st.curLen = (st.cur.map wordCount).sum ∧
  (chunk_size < st.curLen → st.cur.length ≤ 3) ∧
  (∀ sc ∈ st.chunks, chunkOk chunk_size sc) ∧
  List.Chain' shareOverlap st.chunks ∧
  (∀ lastC ∈ st.chunks.getLast?, st.cur ≠ [] ∧ overlapTokens lastC.sents <+: st.cur)

lemma secInv_step (chunk_size : Nat) (st : SecState) (s : String)
    (h : secInv chunk_size st) : secInv chunk_size (sectionStep chunk_size st s) := by
  obtain ⟨h1, h2, h3, h4, h5⟩ := h
  simp only [sectionStep]
  split
  next hc =>
    obtain ⟨hgt, hne⟩ := hc
    refine ⟨rfl, ?_, ?_, ?_, ?_⟩
    · intro _
      have hlen := overlapTokens_length st.cur
      simp only [List.length_append, List.length_cons, List.length_nil]
      omega
    · intro sc hsc
      rcases List.mem_append.mp hsc with hm | hm
      · exact h3 _ hm
      · simp only [List.mem_singleton] at hm
        subst hm
        exact ⟨hne, h1, h2⟩
    · refine List.chain'_append.mpr ⟨h4, List.chain'_singleton _, ?_⟩
      intro x hx y hy
      simp only [List.head?_cons, Option.mem_def, Option.some.injEq] at hy
      subst hy
      exact ⟨(h3 x (List.mem_of_getLast?_eq_some hx)).1, (h5 x hx).2⟩
    · intro lastC hlast
      rw [List.getLast?_concat] at hlast
      simp only [Option.mem_def, Option.some.injEq] at hlast
      subst hlast
      exact ⟨by simp, List.prefix_append _ _⟩
  next hc =>
    rw [not_and_or] at hc
    refine ⟨?_, ?_, h3, h4, ?_⟩
    · show st.curLen + wordCount s = ((st.cur ++ [s]).map wordCount).sum
      simp [h1]
    · show chunk_size < st.curLen + wordCount s → (st.cur ++ [s]).length ≤ 3
      intro hlt
      rcases hc with hle | hnil
      · exact absurd hlt hle
      · simp only [ne_eq, not_not] at hnil
        simp [hnil]
    · show ∀ lastC ∈ st.chunks.getLast?, st.cur ++ [s] ≠ [] ∧ overlapTokens lastC.sents <+: st.cur ++ [s]
      intro lastC hlast
      obtain ⟨hcur, hpre⟩ := h5 lastC hlast
      exact ⟨by simp, hpre.trans (List.prefix_append _ _)⟩

lemma secInv_foldl (chunk_size : Nat) (sentences : List String) (st : SecState)
    (h : secInv chunk_size st) :
    secInv chunk_size (sentences.foldl (sectionStep chunk_size) st) := by
  induction sentences generalizing st with
  | nil => exact h
  | cons a as ih => exact ih _ (secInv_step _ _ _ h)

lemma secInv_init (chunk_size : Nat) : secInv chunk_size ⟨[], [], 0⟩ := by
  refine ⟨rfl, by intro h; simp at h, by intro sc hsc; simp at hsc, List.chain'_nil, ?_⟩
  intro lastC hlast
  simp at hlast

lemma sectionChunkFold_chunkOk (chunk_size : Nat) (sentences : List String) :
    ∀ sc ∈ sectionChunkFold chunk_size sentences, chunkOk chunk_size sc := by
  have h := secInv_foldl chunk_size sentences ⟨[], [], 0⟩ (secInv_init chunk_size)
  obtain ⟨h1, h2, h3, h4, h5⟩ := h
  simp only [sectionChunkFold]
  split
  next hne =>
    intro sc hsc
    rcases List.mem_append.mp hsc with hm | hm
    · exact h3 _ hm
    · simp only [List.mem_singleton] at hm
      subst hm
      exact ⟨hne, h1, h2⟩
  next =>
    exact h3

lemma sectionChunkFold_chain (chunk_size : Nat) (sentences : List String) :
    List.Chain' shareOverlap (sectionChunkFold chunk_size sentences) := by
  have h := secInv_foldl chunk_size sentences ⟨[], [], 0⟩ (secInv_init chunk_size)
  obtain ⟨h1, h2, h3, h4, h5⟩ := h
  simp only [sectionChunkFold]
  split
  next hne =>
    refine List.chain'_append.mpr ⟨h4, List.chain'_singleton _, ?_⟩
    intro x hx y hy
    simp only [List.head?_cons, Option.mem_def, Option.some.injEq] at hy
    subst hy
    exact ⟨(h3 x (List.mem_of_getLast?_eq_some hx)).1, (h5 x hx).2⟩
  next =>
    exact h4

/-- The `length` field recorded in a chunk's metadata dictionary. -/
def metaLength : ChunkMeta → Nat
  | ChunkMeta.section _ n => n
  | ChunkMeta.citation _ n => n
  | ChunkMeta.empty => 0

/-- Claim C1 (amended): every chunk produced by the section chunker
records as `length` the total word count of its sentences, and that
length never exceeds `chunk_size` except for a chunk made of at most
three sentences (the at-most-two-sentence overlap seed plus the single
sentence whose arrival overflowed the budget, or a lone oversized
opening sentence). -/
theorem section_chunk_length_bound (self : TextChunker) (stok : String → List String)
    (text section_type : String) :
    ∀ c ∈ self.get_section_chunks stok text section_type,
      ∃ sc ∈ sectionChunkFold self.chunk_size (stok text),
        c = finalizeSection section_type sc ∧
        sc.len = (sc.sents.map wordCount).sum ∧
        (sc.len ≤ self.chunk_size ∨ sc.sents.length ≤ 3) := by
  intro c hc
  unfold TextChunker.get_section_chunks at hc
  obtain ⟨sc, hmem, rfl⟩ := List.mem_map.mp hc
  obtain ⟨hne, hsum, hbig⟩ := sectionChunkFold_chunkOk self.chunk_size (stok text) sc hmem
  refine ⟨sc, hmem, rfl, hsum, ?_⟩
  rcases le_or_lt sc.len self.chunk_size with hle | hgt
  · exact Or.inl hle
  · exact Or.inr (hbig hgt)

/-- Witness for `section_chunk_length_bound`: chunk_size 1, the two
one-word sentences a and b. -/
theorem section_chunk_length_bound_witness :
    ∃ sc ∈ sectionChunkFold 1 [("a"), ("b")],
      finalizeSection ("body") ⟨[("a")], 1⟩ = finalizeSection ("body") sc ∧
      sc.len = (sc.sents.map wordCount).sum ∧
      (sc.len ≤ 1 ∨ sc.sents.length ≤ 3) :=
  section_chunk_length_bound ⟨1, 50⟩ (fun _ => [("a"), ("b")]) ("t") ("body")
    (finalizeSection ("body") ⟨[("a")], 1⟩) (by decide)

/-- Claim C1 as stated is false: with chunk_size 1 and the two
one-word sentences a and b, no single sentence exceeds the budget,
yet the chunker emits a chunk of recorded length 2 > 1 (the overlap
seed plus the new sentence, two sentences joined). -/
theorem section_chunk_length_cex :
    ¬ ∀ c ∈ TextChunker.get_section_chunks ⟨1, 50⟩ (fun _ => [("a"), ("b")]) ("t") ("body"),
        metaLength c.metadata ≤ 1 ∨ (c.text ∈ [("a"), ("b")] ∧ 1 < wordCount c.text) := by
  decide

/-- Claim C7 (amended): adjacent chunks produced from one section
share the last min(2, sentence count of the earlier chunk) sentences:
that suffix of the earlier chunk is a prefix of the later chunk. -/
theorem section_chunk_overlap (chunk_size : Nat) (sentences : List String) :
    List.Chain' (fun c₁ c₂ => ∃ o, o <:+ c₁.sents ∧ o <+: c₂.sents ∧
        o.length = min 2 c₁.sents.length)
      (sectionChunkFold chunk_size sentences) := by
  refine List.Chain'.imp ?_ (sectionChunkFold_chain chunk_size sentences)
  intro c₁ c₂ h
  exact ⟨overlapTokens c₁.sents, overlapTokens_suffix _, h.2, overlapTokens_length _⟩

/-- Claim C7 as stated is false: with chunk_size 1 and sentences a, b
the two adjacent chunks cannot share two trailing sentences, because
the first chunk has only one sentence. -/
theorem section_chunk_overlap_cex :
    ¬ List.Chain' (fun c₁ c₂ => ∃ o, 2 ≤ o.length ∧ o <:+ c₁.sents ∧ o <+: c₂.sents)
      (sectionChunkFold 1 [("a"), ("b")]) := by
  intro h
  have he : sectionChunkFold 1 [("a"), ("b")] = [⟨[("a")], 1⟩, ⟨[("a"), ("b")], 2⟩] := by
    decide
  rw [he] at h
  obtain ⟨o, hlen, hsuf, -⟩ := (List.chain'_cons.mp h).1
  have hle : o.length ≤ 1 := by simpa using hsuf.length_le
  omega

/-- Claim C8: when no section heading pattern matches anywhere in the
text, `create_chunks` returns exactly the chunks of the whole text
treated as one body section, and every chunk carries section_type
body. -/
theorem create_chunks_no_sections (self : TextChunker) (stok : String → List String)
    (finditer : String → String → List (Nat × String)) (text : String)
    (h : ∀ pt ∈ sectionPatterns, finditer pt.2 text = []) :
    self.create_chunks stok finditer text = self.get_section_chunks stok text ("body") ∧
    ∀ c ∈ self.create_chunks stok finditer text,
      ∃ n, c.metadata = ChunkMeta.section ("body") n := by
  have hsec : identify_section_boundaries finditer text = [] := by
    unfold identify_section_boundaries
    have hf : sectionPatterns.flatMap
        (fun pt => (finditer pt.2 text).map (fun m => (⟨pt.1, m.1, m.2⟩ : SectionMatch))) = [] := by
      rw [List.flatMap_eq_nil_iff]
      intro pt hpt
      rw [h pt hpt]
      rfl
    rw [hf]
    rfl
  have hmain : self.create_chunks stok finditer text
      = self.get_section_chunks stok text ("body") := by
    simp [TextChunker.create_chunks, hsec]
  refine ⟨hmain, ?_⟩
  rw [hmain]
  intro c hc
  unfold TextChunker.get_section_chunks at hc
  obtain ⟨sc, hmem, rfl⟩ := List.mem_map.mp hc
  exact ⟨sc.len, rfl⟩

/-- Witness for `create_chunks_no_sections`: a finditer oracle with no
matches at all on a two-word text. -/
theorem create_chunks_no_sections_witness :
    TextChunker.create_chunks ⟨500, 50⟩ (fun t => [t]) (fun _ _ => []) ("hello world")
      = TextChunker.get_section_chunks ⟨500, 50⟩ (fun t => [t]) ("hello world") ("body") ∧
    ∀ c ∈ TextChunker.create_chunks ⟨500, 50⟩ (fun t => [t]) (fun _ _ => []) ("hello world"),
      ∃ n, c.metadata = ChunkMeta.section ("body") n :=
  create_chunks_no_sections ⟨500, 50⟩ (fun t => [t]) (fun _ _ => []) ("hello world")
    (fun _ _ => rfl)

/-- Claim C10: the output of `create_chunks` is independent of the
configured `overlap` constructor parameter; only
`create_chunks_with_citations` consults it. -/
theorem create_chunks_overlap_independent (chunk_size o₁ o₂ : Nat)
    (stok : String → List String) (finditer : String → String → List (Nat × String))
    (text : String) :
    TextChunker.create_chunks ⟨chunk_size, o₁⟩ stok finditer text
      = TextChunker.create_chunks ⟨chunk_size, o₂⟩ stok finditer text := rfl

/-- All citations seen so far, in order: the citation lists already
attached to emitted chunks followed by the pending
`current_citations`. -/
def pendingCits (st : CitState) : List String :=
  (st.chunks.map CChunk.citations).flatten ++ st.curCits

lemma pendingCits_step (chunk_size overlap : Nat) (isCit : String → Bool)
    (st : CitState) (part : String) :
    pendingCits (citStep chunk_size overlap isCit st part)
      = pendingCits st ++ (if isCit part then [pyStrip part] else []) := by
  simp only [citStep]
  split
  next hcit => simp [pendingCits, hcit]
  next hcit =>
    split
    next => simp [pendingCits, hcit]
    next => simp [pendingCits, hcit]

lemma pendingCits_foldl (chunk_size overlap : Nat) (isCit : String → Bool)
    (parts : List String) (st : CitState) :
    pendingCits (parts.foldl (citStep chunk_size overlap isCit) st)
      = pendingCits st ++ ((parts.filter (fun p => isCit p)).map pyStrip) := by
  induction parts generalizing st with
  | nil => simp
  | cons p ps ih =>
    rw [List.foldl_cons, ih, pendingCits_step]
    by_cases hc : isCit p = true
    · simp [List.filter_cons, hc]
    · simp [List.filter_cons, hc]

lemma citChunkFold_cits_prefix (chunk_size overlap : Nat) (isCit : String → Bool)
    (parts : List String) :
    ((citChunkFold chunk_size overlap isCit parts).map CChunk.citations).flatten
      <+: (parts.filter (fun p => isCit p)).map pyStrip := by
  have h := pendingCits_foldl chunk_size overlap isCit parts ⟨[], [], 0, []⟩
  simp only [pendingCits, List.map_nil, List.flatten_nil, List.nil_append] at h
  simp only [citChunkFold]
  split
  next hne =>
    refine ⟨[], ?_⟩
    simpa using h
  next =>
    exact ⟨_, h⟩

/-- Every word of `ws` originates in a non-citation part of `parts`. -/
def wordsFromLiterals (isCit : String → Bool) (parts : List String) (ws : List String) : Prop :=
  ∀ w ∈ ws, ∃ p ∈ parts, isCit p = false ∧ w ∈ pyWords p

/-- Loop invariant: all chunk words and pending words come from
non-citation parts. -/
def citWordsInv (isCit : String → Bool) (parts : List String) (st : CitState) : Prop :=
  (∀ c ∈ st.chunks, wordsFromLiterals isCit parts c.words) ∧
  wordsFromLiterals isCit parts st.curWords

lemma citWordsInv_step (chunk_size overlap : Nat) (isCit : String → Bool)
    (parts : List String) (st : CitState) (part : String) (hp : part ∈ parts)
    (h : citWordsInv isCit parts st) :
    citWordsInv isCit parts (citStep chunk_size overlap isCit st part) := by
  obtain ⟨h1, h2⟩ := h
  simp only [citStep]
  split
  next => exact ⟨h1, h2⟩
  next hcit =>
    split
    next =>
      refine ⟨?_, ?_⟩
      · intro c hcmem
        rcases List.mem_append.mp hcmem with hm | hm
        · exact h1 _ hm
        · simp only [List.mem_singleton] at hm
          subst hm
          exact h2
      · intro w hw
        refine ⟨part, hp, by simpa using hcit, ?_⟩
        revert hw
        unfold citSeed
        split
        · intro hw
          exact List.mem_of_mem_take hw
        · exact id
    next =>
      refine ⟨h1, ?_⟩
      intro w hw
      rcases List.mem_append.mp hw with hm | hm
      · exact h2 w hm
      · exact ⟨part, hp, by simpa using hcit, hm⟩

lemma citWordsInv_foldl (chunk_size overlap : Nat) (isCit : String → Bool)
    (parts sub : List String) (hsub : ∀ p ∈ sub, p ∈ parts) (st : CitState)
    (h : citWordsInv isCit parts st) :
    citWordsInv isCit parts (sub.foldl (citStep chunk_size overlap isCit) st) := by
  induction sub generalizing st with
  | nil => exact h
  | cons p ps ih =>
    rw [List.foldl_cons]
    exact ih (fun q hq => hsub q (List.mem_cons_of_mem _ hq)) _
      (citWordsInv_step _ _ _ _ _ _ (hsub p (List.mem_cons_self _ _)) h)

/-- `ws` starts with the seed of some non-citation part of `parts`:
the first `overlap` words of that part (all of them if the part has at
most `overlap` words). -/
def hasSeed (overlap : Nat) (isCit : String → Bool) (parts : List String)
    (ws : List String) : Prop :=
  ∃ p ∈ parts, isCit p = false ∧ citSeed overlap (pyWords p) <+: ws

/-- Loop invariant: every chunk after the first starts with a seed,
and so does the pending chunk once something has been emitted. -/
def citSeedInv (overlap : Nat) (isCit : String → Bool) (parts : List String)
    (st : CitState) : Prop :=
  List.Chain' (fun _ c₂ => hasSeed overlap isCit parts c₂.words) st.chunks ∧
  (st.chunks ≠ [] → hasSeed overlap isCit parts st.curWords)

lemma citSeedInv_step (chunk_size overlap : Nat) (isCit : String → Bool)
    (parts : List String) (st : CitState) (part : String) (hp : part ∈ parts)
    (h : citSeedInv overlap isCit parts st) :
    citSeedInv overlap isCit parts (citStep chunk_size overlap isCit st part) := by
  obtain ⟨h1, h2⟩ := h
  simp only [citStep]
  split
  next => exact ⟨h1, h2⟩
  next hcit =>
    split
    next =>
      constructor
      · refine List.chain'_append.mpr ⟨h1, List.chain'_singleton _, ?_⟩
        intro x hx y hy
        simp only [List.head?_cons, Option.mem_def, Option.some.injEq] at hy
        subst hy
        refine h2 ?_
        intro hnil
        rw [hnil] at hx
        simp at hx
      · intro _
        exact ⟨part, hp, by simpa using hcit, List.prefix_refl _⟩
    next =>
      refine ⟨h1, ?_⟩
      intro hne
      obtain ⟨p, hpmem, hpcit, hpre⟩ := h2 hne
      exact ⟨p, hpmem, hpcit, hpre.trans (List.prefix_append _ _)⟩

lemma citSeedInv_foldl (chunk_size overlap : Nat) (isCit : String → Bool)
    (parts sub : List String) (hsub : ∀ p ∈ sub, p ∈ parts) (st : CitState)
    (h : citSeedInv overlap isCit parts st) :
    citSeedInv overlap isCit parts (sub.foldl (citStep chunk_size overlap isCit) st) := by
  induction sub generalizing st with
  | nil => exact h
  | cons p ps ih =>
    rw [List.foldl_cons]
    exact ih (fun q hq => hsub q (List.mem_cons_of_mem _ hq)) _
      (citSeedInv_step _ _ _ _ _ _ (hsub p (List.mem_cons_self _ _)) h)

/-- Claim C2 (amended): citation matches are buffered and attached to
the next emitted chunk, each to at most one chunk, in order — the
concatenation of the chunks' citation lists is a prefix of the
sequence of (stripped) citation parts; a run of citations after the
last emitted chunk (e.g. a text that consists only of citations, for
which no chunk is ever emitted) appears in no chunk at all.  No
citation part contributes any word to any chunk's text. -/
theorem citation_chunks_citations (self : TextChunker) (resplit : String → List String)
    (isCit : String → Bool) (text : String) :
    (self.create_chunks_with_citations resplit isCit text
      = (citChunkFold self.chunk_size self.overlap isCit (resplit text)).map finalizeCitation) ∧
    (((citChunkFold self.chunk_size self.overlap isCit (resplit text)).map
        CChunk.citations).flatten
      <+: ((resplit text).filter (fun p => isCit p)).map pyStrip) ∧
    ∀ c ∈ citChunkFold self.chunk_size self.overlap isCit (resplit text),
      wordsFromLiterals isCit (resplit text) c.words := by
  refine ⟨rfl, citChunkFold_cits_prefix _ _ _ _, ?_⟩
  have h := citWordsInv_foldl self.chunk_size self.overlap isCit (resplit text) (resplit text)
    (fun _ hp => hp) ⟨[], [], 0, []⟩
    ⟨fun c hc => by simp at hc, fun w hw => by simp at hw⟩
  obtain ⟨h1, h2⟩ := h
  simp only [citChunkFold]
  split
  next hne =>
    intro c hc
    rcases List.mem_append.mp hc with hm | hm
    · exact h1 _ hm
    · simp only [List.mem_singleton] at hm
      subst hm
      exact h2
  next => exact h1

/-- Witness for `citation_chunks_citations` at a concrete run: one
citation between two literal parts. -/
theorem citation_chunks_citations_witness :
    (TextChunker.create_chunks_with_citations ⟨3, 1⟩
        (fun _ => [("x y"), ("1 A 2"), ("1 A 2"), ("z w")]) (fun p => p.length > 3) ("t")
      = (citChunkFold 3 1 (fun p => p.length > 3)
          [("x y"), ("1 A 2"), ("1 A 2"), ("z w")]).map finalizeCitation) ∧
    (((citChunkFold 3 1 (fun p => p.length > 3)
        [("x y"), ("1 A 2"), ("1 A 2"), ("z w")]).map CChunk.citations).flatten
      <+: (([("x y"), ("1 A 2"), ("1 A 2"), ("z w")].filter
        (fun p => p.length > 3))).map pyStrip) ∧
    ∀ c ∈ citChunkFold 3 1 (fun p => p.length > 3) [("x y"), ("1 A 2"), ("1 A 2"), ("z w")],
      wordsFromLiterals (fun p => p.length > 3)
        [("x y"), ("1 A 2"), ("1 A 2"), ("z w")] c.words :=
  citation_chunks_citations ⟨3, 1⟩
    (fun _ => [("x y"), ("1 A 2"), ("1 A 2"), ("z w")]) (fun p => p.length > 3) ("t")

/-- Claim C2 as stated is false: for a text that is exactly one
citation, `re.split` on the doubled capture group yields
`['', cit, cit, '']`, no literal word ever enters `current_chunk`, so
`create_chunks_with_citations` returns no chunk at all and the
citation appears in the `citations` list of zero chunks, not exactly
one. -/
theorem citation_chunks_citations_cex :
    ¬ ∃ c ∈ TextChunker.create_chunks_with_citations ⟨500, 50⟩
        (fun _ => [(""), ("12 AB 34"), ("12 AB 34"), ("")]) (fun p => !p.isEmpty) ("12 AB 34"),
      ∃ cits n, c.metadata = ChunkMeta.citation cits n ∧ pyStrip ("12 AB 34") ∈ cits := by
  have h : TextChunker.create_chunks_with_citations ⟨500, 50⟩
      (fun _ => [(""), ("12 AB 34"), ("12 AB 34"), ("")]) (fun p => !p.isEmpty) ("12 AB 34")
      = [] := by decide
  rw [h]
  rintro ⟨c, hc, -⟩
  simp at hc

/-- Claim C6 (amended): when the running word count would exceed
`chunk_size` on a literal segment, the chunk under construction is
closed with the pending citations attached (and the pending list
cleared — see `citation_chunks_citations`), and the next chunk is
seeded with the FIRST `overlap` words of that segment (all of its
words if it has at most `overlap`); its remaining words are discarded.
Hence every chunk after the first starts with such a seed. -/
theorem citation_chunk_seed (self : TextChunker) (resplit : String → List String)
    (isCit : String → Bool) (text : String) :
    List.Chain' (fun _ c₂ => hasSeed self.overlap isCit (resplit text) c₂.words)
      (citChunkFold self.chunk_size self.overlap isCit (resplit text)) := by
  have h := citSeedInv_foldl self.chunk_size self.overlap isCit (resplit text) (resplit text)
    (fun _ hp => hp) ⟨[], [], 0, []⟩ ⟨List.chain'_nil, fun hne => absurd rfl hne⟩
  obtain ⟨h1, h2⟩ := h
  simp only [citChunkFold]
  split
  next hne =>
    refine List.chain'_append.mpr ⟨h1, List.chain'_singleton _, ?_⟩
    intro x hx y hy
    simp only [List.head?_cons, Option.mem_def, Option.some.injEq] at hy
    subst hy
    refine h2 ?_
    intro hnil
    rw [hnil] at hx
    simp at hx
  next => exact h1

/-- Claim C6 as stated is false: with chunk_size 2 and overlap 1, the
two 2-word literal segments produce a second chunk seeded with the
FIRST word of the overflowing segment (c), not its LAST word (d),
whose remainder is discarded. -/
theorem citation_chunk_seed_cex :
    ((citChunkFold 2 1 (fun _ => false) [("a b"), ("c d")]).map CChunk.words
      = [[("a"), ("b")], [("c")]]) ∧
    ¬ [("d")] <+: (((citChunkFold 2 1 (fun _ => false)
        [("a b"), ("c d")]).map CChunk.words).getD 1 []) := by
  constructor
  · decide
  · have he : (((citChunkFold 2 1 (fun _ => false)
        [("a b"), ("c d")]).map CChunk.words).getD 1 []) = [("c")] := by decide
    rw [he]
    rintro ⟨t, ht⟩
    simp only [List.cons_append, List.nil_append, List.cons.injEq] at ht
    exact absurd ht.1 (by decide)

lemma store_embeddings_ok (encode : List String → Except String (List (List Int)))
    (st : StoreState) (case_id : Nat) (chunks : List String) (embedding_type : String)
    (chunk_metadata : Option (List ChunkMeta)) (st2 : StoreState)
    (h : VectorStore.store_embeddings encode st case_id chunks embedding_type chunk_metadata
      = Except.ok st2) :
    st2.cases = st.cases ∧ ∃ embs, encode chunks = Except.ok embs ∧
      st2.embeddings = st.embeddings ++ embRows case_id embedding_type embs chunks
        (chunk_metadata.getD (List.replicate chunks.length ChunkMeta.empty)) := by
  simp only [VectorStore.store_embeddings] at h
  cases he : encode chunks with
  | error e =>
    rw [he] at h
    cases h
  | ok embs =>
    rw [he] at h
    injection h with h2
    subst h2
    exact ⟨rfl, embs, rfl, rfl⟩

/-- Claim C9: an `Except.ok` run of `store_embeddings` leaves the
cases table untouched and only appends the freshly zipped rows to the
embeddings table; rows written by earlier calls (e.g. an earlier
`section`-type call for the same case) are never replaced or
deleted. -/
theorem store_embeddings_appends (encode : List String → Except String (List (List Int)))
    (st : StoreState) (case_id : Nat) (chunks : List String) (embedding_type : String)
    (chunk_metadata : Option (List ChunkMeta)) (st2 : StoreState)
    (h : VectorStore.store_embeddings encode st case_id chunks embedding_type chunk_metadata
      = Except.ok st2) :
    st2.cases = st.cases ∧ ∃ embs, encode chunks = Except.ok embs ∧
      st2.embeddings = st.embeddings ++ embRows case_id embedding_type embs chunks
        (chunk_metadata.getD (List.replicate chunks.length ChunkMeta.empty)) :=
  store_embeddings_ok encode st case_id chunks embedding_type chunk_metadata st2 h

/-- Witness for `store_embeddings_appends`: a second call on a store
that already holds one row. -/
theorem store_embeddings_appends_witness :
    (⟨[], [⟨1, ("section"), [5], ("old"), ChunkMeta.empty⟩,
        ⟨1, ("citation"), [7], ("c1"), ChunkMeta.empty⟩]⟩ : StoreState).cases = [] ∧
    ∃ embs, (fun ts => (Except.ok (ts.map (fun _ => [7])) : Except String (List (List Int))))
        [("c1")] = Except.ok embs ∧
      ([⟨1, ("section"), [5], ("old"), ChunkMeta.empty⟩,
        ⟨1, ("citation"), [7], ("c1"), ChunkMeta.empty⟩] : List EmbRow)
        = [⟨1, ("section"), [5], ("old"), ChunkMeta.empty⟩]
          ++ embRows 1 ("citation") embs [("c1")]
            ((none : Option (List ChunkMeta)).getD (List.replicate [("c1")].length ChunkMeta.empty)) :=
  store_embeddings_appends
    (fun ts => (Except.ok (ts.map (fun _ => [7])) : Except String (List (List Int))))
    ⟨[], [⟨1, ("section"), [5], ("old"), ChunkMeta.empty⟩]⟩ 1 [("c1")] ("citation") none
    ⟨[], [⟨1, ("section"), [5], ("old"), ChunkMeta.empty⟩,
      ⟨1, ("citation"), [7], ("c1"), ChunkMeta.empty⟩]⟩ rfl

/-- Claim C3 (amended): `process_document` returns the case id only
after the header and both embedding batches have been stored, and the
ok result fully characterises the final state; errors propagate (see
`process_document_orphan_header_cex`: a failure after the header insert
leaves the committed header behind without its chunks, so the
orphan header is surfaced only by the propagated error, not rolled
back). -/
theorem process_document_ok (env : Oracles) (st : StoreState) (case : VectorCase)
    (st3 : StoreState) (id : Nat)
    (h : DocumentProcessor.process_document env st case = (st3, Except.ok id)) :
    id = st.cases.length + 1 ∧
    st3.cases = st.cases ++ [⟨id, case.case_number, case.title, case.date,
      case.court.getD [], case.full_text, case.metadata⟩] ∧
    ∃ sEmb cEmb,
      env.encode ((defaultChunker.create_chunks env.sent_tokenize env.finditer
        case.full_text).map Chunk.text) = Except.ok sEmb ∧
      env.encode ((defaultChunker.create_chunks_with_citations env.re_split env.is_citation
        case.full_text).map Chunk.text) = Except.ok cEmb ∧
      st3.embeddings = st.embeddings
        ++ embRows id ("section") sEmb
            ((defaultChunker.create_chunks env.sent_tokenize env.finditer
              case.full_text).map Chunk.text)
            ((defaultChunker.create_chunks env.sent_tokenize env.finditer
              case.full_text).map Chunk.metadata)
        ++ embRows id ("citation") cEmb
            ((defaultChunker.create_chunks_with_citations env.re_split env.is_citation
              case.full_text).map Chunk.text)
            ((defaultChunker.create_chunks_with_citations env.re_split env.is_citation
              case.full_text).map Chunk.metadata) := by
  simp only [DocumentProcessor.process_document, VectorStore.store_case] at h
  split at h
  next heq => cases h
  next st2 heq =>
    split at h
    next heq2 => cases h
    next st3' heq2 =>
      have h1 := congrArg Prod.fst h
      have h2 := congrArg Prod.snd h
      simp only at h1 h2
      injection h2 with h2
      subst h1
      subst h2
      obtain ⟨hc2, sEmb, hse, hemb2⟩ := store_embeddings_ok _ _ _ _ _ _ _ heq
      obtain ⟨hc3, cEmb, hce, hemb3⟩ := store_embeddings_ok _ _ _ _ _ _ _ heq2
      refine ⟨rfl, ?_, sEmb, cEmb, hse, hce, ?_⟩
      · rw [hc3, hc2]
      · rw [hemb3, hemb2]
        simp [List.append_assoc]

/-- Trivial oracle set whose embedding call always succeeds. -/
def envOkW : Oracles :=
  ⟨fun t => [t], fun _ _ => [], fun t => [t], fun _ => false,
    fun ts => Except.ok (ts.map (fun _ => [0]))⟩

/-- Trivial oracle set whose embedding call always fails. -/
def envFailW : Oracles :=
  ⟨fun t => [t], fun _ _ => [], fun t => [t], fun _ => false,
    fun _ => Except.error ("EmbeddingError")⟩

/-- A one-word concrete case. -/
def caseW : VectorCase := ⟨("001"), ("T"), ("2024-01-01"), none, ("w"), []⟩

/-- Witness for `process_document_ok` on an empty store with the
always-succeeding oracles. -/
theorem process_document_ok_witness :
    1 = ([] : List CaseRow).length + 1 ∧
    (DocumentProcessor.process_document envOkW ⟨[], []⟩ caseW).1.cases
      = ([] : List CaseRow) ++ [⟨1, caseW.case_number, caseW.title, caseW.date,
        caseW.court.getD [], caseW.full_text, caseW.metadata⟩] ∧
    ∃ sEmb cEmb,
      envOkW.encode ((defaultChunker.create_chunks envOkW.sent_tokenize envOkW.finditer
        caseW.full_text).map Chunk.text) = Except.ok sEmb ∧
      envOkW.encode ((defaultChunker.create_chunks_with_citations envOkW.re_split
        envOkW.is_citation caseW.full_text).map Chunk.text) = Except.ok cEmb ∧
      (DocumentProcessor.process_document envOkW ⟨[], []⟩ caseW).1.embeddings
        = ([] : List EmbRow)
        ++ embRows 1 ("section") sEmb
            ((defaultChunker.create_chunks envOkW.sent_tokenize envOkW.finditer
              caseW.full_text).map Chunk.text)
            ((defaultChunker.create_chunks envOkW.sent_tokenize envOkW.finditer
              caseW.full_text).map Chunk.metadata)
        ++ embRows 1 ("citation") cEmb
            ((defaultChunker.create_chunks_with_citations envOkW.re_split
              envOkW.is_citation caseW.full_text).map Chunk.text)
            ((defaultChunker.create_chunks_with_citations envOkW.re_split
              envOkW.is_citation caseW.full_text).map Chunk.metadata) :=
  process_document_ok envOkW ⟨[], []⟩ caseW
    (DocumentProcessor.process_document envOkW ⟨[], []⟩ caseW).1 1 rfl

/-- Claim C3 as stated is false: when the embedding step fails, the
error is propagated but the already-committed case header stays in
the store with no embedding rows at all — an orphan case
(header without chunks). -/
theorem process_document_orphan_header_cex :
    (DocumentProcessor.process_document envFailW ⟨[], []⟩ caseW).2
      = Except.error ("EmbeddingError") ∧
    (DocumentProcessor.process_document envFailW ⟨[], []⟩ caseW).1.cases.length = 1 ∧
    (DocumentProcessor.process_document envFailW ⟨[], []⟩ caseW).1.embeddings = [] :=
  ⟨rfl, rfl, rfl⟩

/-- Claim C4 (amended): batch processing handles the cases one at a
time in order, but stops at the first failure: the failing case's
error becomes the result of the whole batch, the remaining cases are
never processed, and no per-case outcome list is produced. -/
theorem batch_first_failure_aborts (env : Oracles) (st : StoreState) (c : VectorCase)
    (cs : List VectorCase) (st1 : StoreState) (e : String)
    (h : DocumentProcessor.process_document env st c = (st1, Except.error e)) :
    DocumentProcessor.batch_process_documents env st (c :: cs) = (st1, Except.error e) := by
  simp only [DocumentProcessor.batch_process_documents, batchAux, h]

/-- Witness for `batch_first_failure_aborts` with the failing oracle
set. -/
theorem batch_first_failure_aborts_witness :
    DocumentProcessor.batch_process_documents envFailW ⟨[], []⟩ (caseW :: [caseW])
      = ((DocumentProcessor.process_document envFailW ⟨[], []⟩ caseW).1,
        Except.error ("EmbeddingError")) :=
  batch_first_failure_aborts envFailW ⟨[], []⟩ caseW [caseW]
    (DocumentProcessor.process_document envFailW ⟨[], []⟩ caseW).1 ("EmbeddingError")
    rfl

/-- Oracles whose embedding call fails exactly on the chunks of the
text bad. -/
def envSelW : Oracles :=
  ⟨fun t => [t], fun _ _ => [], fun t => [t], fun _ => false,
    fun ts => if ts.contains ("bad") then Except.error ("emb")
      else Except.ok (ts.map (fun _ => [0]))⟩

/-- A case whose embedding fails. -/
def caseBad : VectorCase := ⟨("002"), ("B"), ("2024-01-02"), none, ("bad"), []⟩

/-- A case whose embedding succeeds. -/
def caseGood : VectorCase := ⟨("003"), ("G"), ("2024-01-03"), none, ("good"), []⟩

/-- Claim C4 as stated is false: with a failing first case and a
processable second case the batch returns a single propagated error
(no per-case outcome identifying the failed index), and the second
case is never stored — even though processing it alone succeeds. -/
theorem batch_isolation_cex :
    ((DocumentProcessor.batch_process_documents envSelW ⟨[], []⟩ [caseBad, caseGood]).2
      = Except.error ("emb")) ∧
    ((DocumentProcessor.batch_process_documents envSelW ⟨[], []⟩
      [caseBad, caseGood]).1.cases.length = 1) ∧
    ((DocumentProcessor.process_document envSelW ⟨[], []⟩ caseGood).2 = Except.ok 1) :=
  ⟨rfl, rfl, rfl⟩

/-- Claim C5 (amended): `hybrid_search` returns at most `top_k`
results sorted by score descending, and the UNION removes only rows
identical in every column, so the underlying row list has no duplicate
rows; but a (case_number, text_chunk) pair present in both the vector
and the lexical result sets with different scores yields two separate
entries — no single entry carrying the vector score is kept. -/
theorem hybrid_search_shape (vecSim : List Int → ℚ) (tsMatch : String → Bool)
    (tsRank : String → ℚ) (st : StoreState) (top_k : Nat) :
    (VectorStore.hybrid_search vecSim tsMatch tsRank st top_k).length ≤ top_k ∧
    List.Pairwise (fun a b => b.similarity ≤ a.similarity)
      (VectorStore.hybrid_search vecSim tsMatch tsRank st top_k) ∧
    (hybridRows vecSim tsMatch tsRank st top_k).Nodup := by
  haveI hTot : IsTotal SearchRow (fun a b => b.similarity ≤ a.similarity) :=
    ⟨fun a b => le_total b.similarity a.similarity⟩
  haveI hTrans : IsTrans SearchRow (fun a b => b.similarity ≤ a.similarity) :=
    ⟨fun _ _ _ hab hbc => le_trans hbc hab⟩
  refine ⟨?_, ?_, ?_⟩
  · rw [VectorStore.hybrid_search, List.length_map, hybridRows]
    exact List.length_take_le _ _
  · rw [VectorStore.hybrid_search]
    refine List.pairwise_map.mpr ?_
    refine List.Pairwise.sublist (List.take_sublist _ _) ?_
    exact List.sorted_insertionSort _ _
  · rw [hybridRows]
    refine List.Nodup.sublist (List.take_sublist _ _) ?_
    exact (List.perm_insertionSort _ _).symm.nodup (List.nodup_dedup _)

/-- A one-case store whose single embedded chunk is the whole full
text of the case. -/
def stHybridW : StoreState :=
  ⟨[⟨1, ("C1"), ("T"), ("2024-01-01"), [], ("hello world"), []⟩],
    [⟨1, ("section"), [1], ("hello world"), ChunkMeta.empty⟩]⟩

/-- Claim C5 as stated is false: when the same (case_number,
text_chunk) pair is produced by both the vector search (score 9/10)
and the lexical search (score 2/1), `hybrid_search` returns both rows —
the pair appears twice with two different scores instead of once with
the vector score. -/
theorem hybrid_search_dedup_cex :
    ((VectorStore.hybrid_search (fun _ => mkRat 9 10) (fun _ => true) (fun _ => mkRat 2 1)
      stHybridW 10).length = 2) ∧
    (((VectorStore.hybrid_search (fun _ => mkRat 9 10) (fun _ => true) (fun _ => mkRat 2 1)
        stHybridW 10).getD 0 ⟨("z"), ("z"), none, ("z"), 0⟩).case_number
      = ((VectorStore.hybrid_search (fun _ => mkRat 9 10) (fun _ => true) (fun _ => mkRat 2 1)
        stHybridW 10).getD 1 ⟨("z"), ("z"), none, ("z"), 0⟩).case_number) ∧
    (((VectorStore.hybrid_search (fun _ => mkRat 9 10) (fun _ => true) (fun _ => mkRat 2 1)
        stHybridW 10).getD 0 ⟨("z"), ("z"), none, ("z"), 0⟩).text_chunk
      = ((VectorStore.hybrid_search (fun _ => mkRat 9 10) (fun _ => true) (fun _ => mkRat 2 1)
        stHybridW 10).getD 1 ⟨("z"), ("z"), none, ("z"), 0⟩).text_chunk) ∧
    (((VectorStore.hybrid_search (fun _ => mkRat 9 10) (fun _ => true) (fun _ => mkRat 2 1)
        stHybridW 10).getD 0 ⟨("z"), ("z"), none, ("z"), 0⟩).similarity
      ≠ ((VectorStore.hybrid_search (fun _ => mkRat 9 10) (fun _ => true) (fun _ => mkRat 2 1)
        stHybridW 10).getD 1 ⟨("z"), ("z"), none, ("z"), 0⟩).similarity) := by
  decide
